import Mathlib

/-
Verification of the accounting/settlement core of the EureProno
sports-tipping application.

The embedding below translates, into Lean, the client-side reductions in
`src/pages/Dashboard.tsx` (moderator stats and the leaderboard), the
`UserHistory` component, the reaction toggle in the tips feed, the comment
list, and the storage-side rules declared in the SQL schema (the
`enforce_tip_anti_cheat` trigger and the `UNIQUE(user_id, tip_id)`
constraint on `user_tracking`).  Monetary amounts and odds are `DECIMAL`
columns manipulated with exact client arithmetic on small values; they are
modelled as rationals.  Timestamps are modelled as integers.
-/

namespace EureProno

/-- Tip status enum, from `CREATE TYPE public.tip_status AS ENUM
('pending', 'won', 'lost', 'void')` in the schema. -/
inductive TipStatus where
  | pending
  | won
  | lost
  | void
deriving DecidableEq

/-- A row of the `tips` table, restricted to the columns the accounting
core reads (`id`, `match_name`, `sport`, `bet_type`, `odds`, `status`,
`match_start_time`). -/
structure Tip where
  id : String
  match_name : String
  sport : String
  bet_type : String
  odds : ℚ
  status : TipStatus
  match_start_time : Int
deriving DecidableEq

/-- A row of the `user_tracking` table (a stake), restricted to the
columns the Dashboard aggregation reads. -/
structure Track where
  user_id : String
  tip_id : String
  stake : ℚ
deriving DecidableEq

/-- A `user_tracking` row joined with its tip, as fetched by
`UserHistory` (`select("*, tips(match_name, bet_type, odds, status,
sport)")`); only the fields the aggregation reads are kept. -/
structure HistEntry where
  stake : ℚ
  odds : ℚ
  status : TipStatus
deriving DecidableEq

/-- Per-stake realized profit/loss, from the `pl` expression in
`UserHistory`: `status === "won" ? stake * (odds - 1) : status === "lost"
? -stake : 0`. -/
def pl (status : TipStatus) (stake odds : ℚ) : ℚ :=
  if status = .won then stake * (odds - 1)
  else if status = .lost then -stake
  else 0

/-- `totalStaked` in `UserHistory`: `entries.reduce((acc, e) => acc +
Number(e.stake), 0)`. -/
def uhTotalStaked (entries : List HistEntry) : ℚ :=
  entries.foldl (fun acc e => acc + e.stake) 0

/-- `wonEntries` in `UserHistory`: `entries.filter((e) => e.tips.status
=== "won")`. -/
def wonEntries (entries : List HistEntry) : List HistEntry :=
  entries.filter (fun e => e.status = .won)

/-- `lostEntries` in `UserHistory`. -/
def lostEntries (entries : List HistEntry) : List HistEntry :=
  entries.filter (fun e => e.status = .lost)

/-- `totalProfit` in `UserHistory`: winnings summed over won entries
minus stakes summed over lost entries. -/
def uhTotalProfit (entries : List HistEntry) : ℚ :=
  (wonEntries entries).foldl (fun acc e => acc + e.stake * (e.odds - 1)) 0
    - (lostEntries entries).foldl (fun acc e => acc + e.stake) 0

/-- `roi` in `UserHistory`: `totalStaked > 0 ? (totalProfit /
totalStaked) * 100 : 0`. -/
def uhRoi (entries : List HistEntry) : ℚ :=
  if 0 < uhTotalStaked entries then uhTotalProfit entries / uhTotalStaked entries * 100
  else 0

/-- Win-rate ratio in `UserHistory` (the source renders it with
`toFixed(0)`; the ratio itself is modelled): `wonEntries.length /
(wonEntries.length + lostEntries.length) * 100` when the denominator is
positive, else 0. -/
def uhWinRate (entries : List HistEntry) : ℚ :=
  if 0 < (wonEntries entries).length + (lostEntries entries).length then
    ((wonEntries entries).length : ℚ)
      / (((wonEntries entries).length : ℚ) + ((lostEntries entries).length : ℚ)) * 100
  else 0

/-- `wonTipIds` in `Dashboard`: ids of tips whose status is won (the
source builds a `Set`; membership is what is used). -/
def wonTipIds (tips : List Tip) : List String :=
  (tips.filter (fun t => t.status = .won)).map Tip.id

/-- `lostTipIds` in `Dashboard`. -/
def lostTipIds (tips : List Tip) : List String :=
  (tips.filter (fun t => t.status = .lost)).map Tip.id

/-- `totalStakes` in `Dashboard`: `tracking.reduce((acc, t) => acc +
Number(t.stake), 0)` — every tracking row is summed, resolved or not. -/
def dashTotalStakes (tracking : List Track) : ℚ :=
  tracking.foldl (fun acc t => acc + t.stake) 0

/-- One step of the `totalProfit` reduction in `Dashboard`: resolve the
tip with `tips.find`, skip if unresolved, otherwise branch on membership
in the won/lost id sets. -/
def dashProfitStep (tips : List Tip) (acc : ℚ) (t : Track) : ℚ :=
  match tips.find? (fun tp => tp.id = t.tip_id) with
  | none => acc
  | some tip =>
    if (wonTipIds tips).contains t.tip_id then acc + t.stake * (tip.odds - 1)
    else if (lostTipIds tips).contains t.tip_id then acc - t.stake
    else acc

/-- `totalProfit` in `Dashboard`: `tracking.reduce(..., 0)`. -/
def dashTotalProfit (tips : List Tip) (tracking : List Track) : ℚ :=
  tracking.foldl (dashProfitStep tips) 0

/-- `roi` in `Dashboard`: `totalStakes > 0 ? (totalProfit / totalStakes)
* 100 : 0`. -/
def dashRoi (tips : List Tip) (tracking : List Track) : ℚ :=
  if 0 < dashTotalStakes tracking then
    dashTotalProfit tips tracking / dashTotalStakes tracking * 100
  else 0

/-- The stats block of the moderator `Dashboard` view. -/
structure DashStats where
  totalTips : Nat
  wonTips : Nat
  lostTips : Nat
  totalStakes : ℚ
  totalProfit : ℚ
  roi : ℚ
deriving DecidableEq

/-- The `Dashboard` stats computed from the fetched tips and tracking
rows. -/
def dashboardStats (tips : List Tip) (tracking : List Track) : DashStats :=
  { totalTips := tips.length
    wonTips := (tips.filter (fun t => t.status = .won)).length
    lostTips := (tips.filter (fun t => t.status = .lost)).length
    totalStakes := dashTotalStakes tracking
    totalProfit := dashTotalProfit tips tracking
    roi := dashRoi tips tracking }

/-- Per-stake contribution to the `Dashboard` `totalProfit` reduction
(the summand `dashProfitStep` adds to its accumulator). -/
def dashContrib (tips : List Tip) (t : Track) : ℚ :=
  match tips.find? (fun tp => tp.id = t.tip_id) with
  | none => 0
  | some tip =>
    if (wonTipIds tips).contains t.tip_id then t.stake * (tip.odds - 1)
    else if (lostTipIds tips).contains t.tip_id then -t.stake
    else 0

/-- The `enforce_tip_anti_cheat` trigger from the schema: once
`match_start_time <= now()`, an update that changes `bet_type`, `odds`
or `match_name` raises an exception; otherwise the update row is
accepted. -/
def enforce_tip_anti_cheat (now : Int) (old new : Tip) : Except String Tip :=
  if old.match_start_time ≤ now then
    if new.bet_type ≠ old.bet_type ∨ new.odds ≠ old.odds ∨ new.match_name ≠ old.match_name then
      Except.error "Cannot edit tip details after match has started. Only status can be updated."
    else Except.ok new
  else Except.ok new

/-- The row that ends up stored after an update attempt: the new row on
success; the old row unchanged when the trigger raised. -/
def applyTipUpdate (now : Int) (old new : Tip) : Tip :=
  match enforce_tip_anti_cheat now old new with
  | Except.ok t => t
  | Except.error _ => old

/-- The update row built by `updateTipStatus` in `Dashboard`:
`supabase.from("tips").update({ status })` changes only the status
field. -/
def setStatus (t : Tip) (s : TipStatus) : Tip :=
  { t with status := s }

/-- The tip columns fetched with each tracking row by the leaderboard
query (`tips(odds, status)`). -/
structure TipJoin where
  odds : ℚ
  status : TipStatus
deriving DecidableEq

/-- A row of the leaderboard query `user_tracking.select("user_id,
stake, tip_id, tips(odds, status), profiles(username)")`; the joins may
be absent (`t.tips?.status`, `t.profiles?.username`). -/
structure TrackRow where
  user_id : String
  stake : ℚ
  tip_id : String
  tips : Option TipJoin
  username : Option String
deriving DecidableEq

/-- A `LeaderboardEntry` as accumulated by `fetchLeaderboard`. -/
structure LBEntry where
  user_id : String
  username : String
  total_profit : ℚ
  total_staked : ℚ
  wins : Nat
  total_bets : Nat
deriving DecidableEq

/-- The fresh entry `fetchLeaderboard` puts in the map the first time a
user id is seen. -/
def initEntry (t : TrackRow) : LBEntry :=
  { user_id := t.user_id
    username := t.username.getD "User"
    total_profit := 0
    total_staked := 0
    wins := 0
    total_bets := 0 }

/-- The per-row mutation of a user's leaderboard entry: stake and bet
count always accumulate; profit and wins accumulate according to the
joined tip's status. -/
def accumulate (tj : TipJoin) (stake : ℚ) (e : LBEntry) : LBEntry :=
  let e1 := { e with total_staked := e.total_staked + stake, total_bets := e.total_bets + 1 }
  if tj.status = .won then
    { e1 with total_profit := e1.total_profit + stake * (tj.odds - 1), wins := e1.wins + 1 }
  else if tj.status = .lost then
    { e1 with total_profit := e1.total_profit - stake }
  else e1

/-- The `userMap` of `fetchLeaderboard`, modelled as an association list
in key-insertion order (a JS `Map` iterates in insertion order): update
the user's entry in place, or append a fresh one. -/
def upsert (t : TrackRow) (tj : TipJoin) : List (String × LBEntry) → List (String × LBEntry)
  | [] => [(t.user_id, accumulate tj t.stake (initEntry t))]
  | (k, e) :: rest =>
    if k = t.user_id then (k, accumulate tj t.stake e) :: rest
    else (k, e) :: upsert t tj rest

/-- One iteration of the `forEach` in `fetchLeaderboard`: rows with a
missing join or a pending/void tip are skipped before touching the
map. -/
def lbStep (m : List (String × LBEntry)) (t : TrackRow) : List (String × LBEntry) :=
  match t.tips with
  | none => m
  | some tj => if tj.status = .pending ∨ tj.status = .void then m else upsert t tj m

/-- A tracking row counts for the leaderboard exactly when its tip join
is present and settled (status won or lost). -/
def settledRow (t : TrackRow) : Bool :=
  match t.tips with
  | none => false
  | some tj => if tj.status = .pending ∨ tj.status = .void then false else true

/-- The sort comparator of `fetchLeaderboard`: `(a, b) => b.total_profit
- a.total_profit`, i.e. larger profit first. -/
def lbLe (a b : LBEntry) : Bool :=
  decide (b.total_profit ≤ a.total_profit)

/-- `fetchLeaderboard`: group the tracking rows by user, sort the
entries by profit descending, keep the top 10. -/
def fetchLeaderboard (rows : List TrackRow) : List LBEntry :=
  (((rows.foldl lbStep []).map Prod.snd).mergeSort lbLe).take 10

/-- The per-entry display ROI in the `Leaderboard` view:
`entry.total_staked > 0 ? (entry.total_profit / entry.total_staked) *
100 : 0`. -/
def lbRoi (e : LBEntry) : ℚ :=
  if 0 < e.total_staked then e.total_profit / e.total_staked * 100 else 0

/-- A row of the `tip_reactions` table, restricted to the columns the
tally reads. -/
structure Reaction where
  user_id : String
  tip_id : String
  reaction_type : String
deriving DecidableEq

/-- Whether a reaction row is the given viewer's reaction of the given
kind on the given tip. -/
def isReaction (u t ty : String) (r : Reaction) : Bool :=
  r.user_id = u && r.tip_id = t && r.reaction_type = ty

/-- The per-tip like count built by `fetchReactions`. -/
def likeCount (rs : List Reaction) (t : String) : Nat :=
  rs.countP (fun r => r.tip_id = t && r.reaction_type = "like")

/-- The per-tip fire count built by `fetchReactions`. -/
def fireCount (rs : List Reaction) (t : String) : Nat :=
  rs.countP (fun r => r.tip_id = t && r.reaction_type = "fire")

/-- The viewer participation flag built by `fetchReactions`
(`userLiked` for kind "like", `userFired` for kind "fire"): whether the
set holds a reaction of that kind by the viewer on the tip. -/
def userFlag (rs : List Reaction) (u t ty : String) : Bool :=
  rs.any (isReaction u t ty)

/-- `handleReact`: consult the viewer's flag for the tip (the `userLiked`
flag when the kind is "like", the `userFired` flag otherwise); if set,
delete the rows matching (user, tip, kind), else insert one such row. -/
def handleReact (rs : List Reaction) (u t ty : String) : List Reaction :=
  let key := if ty = "like" then "like" else "fire"
  if userFlag rs u t key then
    rs.filter (fun r => !(isReaction u t ty r))
  else
    rs ++ [⟨u, t, ty⟩]

/-- A row of the `tip_comments` table, restricted to the columns the
comment list reads. -/
structure Comment where
  id : String
  user_id : String
  tip_id : String
  content : String
  created_at : Int
deriving DecidableEq

/-- `fetchComments`: the rows with `tip_id = tipId`, ordered by
`created_at` ascending. -/
def fetchComments (comments : List Comment) (tipId : String) : List Comment :=
  ((comments.filter (fun c => c.tip_id = tipId)).mergeSort
    (fun a b => decide (a.created_at ≤ b.created_at)))

/-- The message a unique-violation on `UNIQUE(user_id, tip_id)` of
`user_tracking` surfaces with (the storage layer's standard
duplicate-key wording, which `handleStake` tests for the word
"duplicate"). -/
def dupErrorMessage : String :=
  "duplicate key value violates unique constraint user_tracking_user_id_tip_id_key"

/-- Insert into `user_tracking` under the schema's `UNIQUE(user_id,
tip_id)` constraint: a row for an already-tracked (user, tip) pair is
rejected with a duplicate-key error and nothing is written. -/
def insertTracking (rows : List Track) (nr : Track) : Except String (List Track) :=
  if rows.any (fun r => r.user_id = nr.user_id && r.tip_id = nr.tip_id) then
    Except.error dupErrorMessage
  else Except.ok (rows ++ [nr])

/-- The table contents after an insert attempt: unchanged when the
insert was rejected. -/
def insertTrackingState (rows : List Track) (nr : Track) : List Track :=
  match insertTracking rows nr with
  | Except.ok rs => rs
  | Except.error _ => rows

/-- The toast `handleStake` shows on an insert error:
`error.message.includes("duplicate")` selects "You already tracked this
tip" over the generic failure message (`includes` is modelled as
substring containment on the character lists). -/
def stakeToastMessage (msg : String) : String :=
  if "duplicate".toList.IsInfix msg.toList then "You already tracked this tip"
  else "Failed to track tip"

/-- Folding addition of a projected value is summing the projections. -/
theorem foldl_add_map_sum {α : Type} (f : α → ℚ) (l : List α) :
    ∀ acc : ℚ, l.foldl (fun a x => a + f x) acc = acc + (l.map f).sum := by
  induction l with
  | nil => intro acc; simp
  | cons x l ih => intro acc; simp [ih, add_assoc]

/-- Each step of the Dashboard profit reduction adds the per-stake
contribution to the accumulator. -/
theorem dashProfitStep_eq_add (tips : List Tip) (acc : ℚ) (t : Track) :
    dashProfitStep tips acc t = acc + dashContrib tips t := by
  unfold dashProfitStep dashContrib
  cases tips.find? (fun tp => tp.id = t.tip_id) with
  | none => simp
  | some tip =>
    by_cases h1 : t.tip_id ∈ wonTipIds tips <;>
      by_cases h2 : t.tip_id ∈ lostTipIds tips <;>
      simp [h1, h2, sub_eq_add_neg]

/-- The Dashboard `totalProfit` reduction is the sum of the per-stake
contributions. -/
theorem dashTotalProfit_eq_sum (tips : List Tip) (tracking : List Track) :
    dashTotalProfit tips tracking = (tracking.map (dashContrib tips)).sum := by
  have h : ∀ (l : List Track) (acc : ℚ),
      l.foldl (dashProfitStep tips) acc = acc + (l.map (dashContrib tips)).sum := by
    intro l
    induction l with
    | nil => intro acc; simp
    | cons x l ih => intro acc; simp [dashProfitStep_eq_add, ih, add_assoc]
  simpa [dashTotalProfit] using h tracking 0

/-- With distinct tip ids, membership of a stake's tip id in `wonTipIds`
is equivalent to the resolved tip having status won. -/
theorem mem_wonTipIds_iff (tips : List Tip) (hids : (tips.map Tip.id).Nodup)
    {tip : Tip} {x : String} (hfind : tips.find? (fun tp => tp.id = x) = some tip) :
    x ∈ wonTipIds tips ↔ tip.status = .won := by
  have hmem := List.mem_of_find?_eq_some hfind
  have hid : tip.id = x := by simpa using List.find?_some hfind
  constructor
  · intro hx
    obtain ⟨tp, htp, hstat⟩ : ∃ tp ∈ tips.filter (fun t => t.status = .won), tp.id = x := by
      simpa [wonTipIds] using hx
    have htp' : tp ∈ tips := (List.mem_filter.mp htp).1
    have hst : tp.status = .won := by simpa using (List.mem_filter.mp htp).2
    have : tp = tip := List.inj_on_of_nodup_map hids htp' hmem (hstat.trans hid.symm)
    simpa [this] using hst
  · intro h
    simp only [wonTipIds, List.mem_map]
    exact ⟨tip, List.mem_filter.mpr ⟨hmem, by simp [h]⟩, hid⟩

/-- With distinct tip ids, membership of a stake's tip id in
`lostTipIds` is equivalent to the resolved tip having status lost. -/
theorem mem_lostTipIds_iff (tips : List Tip) (hids : (tips.map Tip.id).Nodup)
    {tip : Tip} {x : String} (hfind : tips.find? (fun tp => tp.id = x) = some tip) :
    x ∈ lostTipIds tips ↔ tip.status = .lost := by
  have hmem := List.mem_of_find?_eq_some hfind
  have hid : tip.id = x := by simpa using List.find?_some hfind
  constructor
  · intro hx
    obtain ⟨tp, htp, hstat⟩ : ∃ tp ∈ tips.filter (fun t => t.status = .lost), tp.id = x := by
      simpa [lostTipIds] using hx
    have htp' : tp ∈ tips := (List.mem_filter.mp htp).1
    have hst : tp.status = .lost := by simpa using (List.mem_filter.mp htp).2
    have : tp = tip := List.inj_on_of_nodup_map hids htp' hmem (hstat.trans hid.symm)
    simpa [this] using hst
  · intro h
    simp only [lostTipIds, List.mem_map]
    exact ⟨tip, List.mem_filter.mpr ⟨hmem, by simp [h]⟩, hid⟩

/-- With distinct tip ids, the per-stake Dashboard contribution is the
§3 profit formula applied to the resolved tip. -/
theorem dashContrib_eq_pl (tips : List Tip) (hids : (tips.map Tip.id).Nodup) (t : Track) :
    dashContrib tips t =
      match tips.find? (fun tp => tp.id = t.tip_id) with
      | none => 0
      | some tip => pl tip.status t.stake tip.odds := by
  unfold dashContrib
  cases hf : tips.find? (fun tp => tp.id = t.tip_id) with
  | none => rfl
  | some tip =>
    have hw := mem_wonTipIds_iff tips hids hf
    have hl := mem_lostTipIds_iff tips hids hf
    unfold pl
    by_cases hs : tip.status = .won
    · simp [hw.mpr hs, hs]
    · have hw' : t.tip_id ∉ wonTipIds tips := fun hc => hs (hw.mp hc)
      by_cases hs2 : tip.status = .lost
      · simp [hw', hl.mpr hs2, hs, hs2]
      · have hl' : t.tip_id ∉ lostTipIds tips := fun hc => hs2 (hl.mp hc)
        simp [hw', hl', hs, hs2]

/-- The split won-minus-lost sums of `UserHistory` collapse to a single
sum of per-entry profit. -/
theorem sum_split_eq_sum_pl (entries : List HistEntry) :
    ((entries.filter (fun e => e.status = .won)).map (fun e => e.stake * (e.odds - 1))).sum
      - ((entries.filter (fun e => e.status = .lost)).map (fun e => e.stake)).sum
    = (entries.map (fun e => pl e.status e.stake e.odds)).sum := by
  induction entries with
  | nil => simp
  | cons e l ih =>
    cases he : e.status with
    | won =>
      have hpl : pl TipStatus.won e.stake e.odds = e.stake * (e.odds - 1) := by simp [pl]
      simp only [List.filter_cons, List.map_cons, List.sum_cons, he]
      simp [hpl]
      linear_combination ih
    | lost =>
      have hpl : pl TipStatus.lost e.stake e.odds = -e.stake := by simp [pl]
      simp only [List.filter_cons, List.map_cons, List.sum_cons, he]
      simp [hpl]
      linear_combination ih
    | pending =>
      have hpl : pl TipStatus.pending e.stake e.odds = 0 := by simp [pl]
      simp only [List.filter_cons, List.map_cons, List.sum_cons, he]
      simp [hpl]
      linear_combination ih
    | void =>
      have hpl : pl TipStatus.void e.stake e.odds = 0 := by simp [pl]
      simp only [List.filter_cons, List.map_cons, List.sum_cons, he]
      simp [hpl]
      linear_combination ih

/-- `UserHistory` total profit is the sum of per-entry profits. -/
theorem uhTotalProfit_eq_sum (entries : List HistEntry) :
    uhTotalProfit entries = (entries.map (fun e => pl e.status e.stake e.odds)).sum := by
  unfold uhTotalProfit wonEntries lostEntries
  rw [foldl_add_map_sum, foldl_add_map_sum, zero_add, zero_add]
  exact sum_split_eq_sum_pl entries

/-- C1: a stake realizes `stake × (odds − 1)` when its tip is won,
`−stake` when lost, and 0 when pending or void, and both the
`UserHistory` and the `Dashboard` total-profit aggregates are sums of
exactly these per-stake figures (the Dashboard one under the schema's
guarantee that tip ids are distinct). -/
theorem stake_profit_spec (tips : List Tip) (tracking : List Track)
    (entries : List HistEntry) (hids : (tips.map Tip.id).Nodup) :
    (∀ stake odds : ℚ,
      pl .won stake odds = stake * (odds - 1) ∧
      pl .lost stake odds = -stake ∧
      pl .pending stake odds = 0 ∧
      pl .void stake odds = 0) ∧
    uhTotalProfit entries = (entries.map (fun e => pl e.status e.stake e.odds)).sum ∧
    dashTotalProfit tips tracking =
      (tracking.map (fun t =>
        match tips.find? (fun tp => tp.id = t.tip_id) with
        | none => 0
        | some tip => pl tip.status t.stake tip.odds)).sum := by
  refine ⟨fun stake odds => ⟨by simp [pl], by simp [pl], by simp [pl], by simp [pl]⟩,
    uhTotalProfit_eq_sum entries, ?_⟩
  rw [dashTotalProfit_eq_sum]
  congr 1
  exact List.map_congr_left fun t _ => dashContrib_eq_pl tips hids t

/-- C1 witness: the spec's concrete scenario, two stakes of 10 and 20 on
a won tip with odds 3 give a total profit of 60. -/
theorem stake_profit_spec_witness :
    dashTotalProfit
        [{ id := "t1", match_name := "A vs B", sport := "Football", bet_type := "1X2",
           odds := 3, status := .won, match_start_time := 0 }]
        [{ user_id := "u1", tip_id := "t1", stake := 10 },
         { user_id := "u2", tip_id := "t1", stake := 20 }]
      = ([{ user_id := "u1", tip_id := "t1", stake := (10 : ℚ) },
          { user_id := "u2", tip_id := "t1", stake := 20 }].map (fun t : Track =>
            match [({ id := "t1", match_name := "A vs B", sport := "Football",
                      bet_type := "1X2", odds := 3, status := .won,
                      match_start_time := 0 } : Tip)].find? (fun tp => tp.id = t.tip_id) with
            | none => 0
            | some tip => pl tip.status t.stake tip.odds)).sum :=
  (stake_profit_spec
      [{ id := "t1", match_name := "A vs B", sport := "Football", bet_type := "1X2",
         odds := 3, status := .won, match_start_time := 0 }]
      [{ user_id := "u1", tip_id := "t1", stake := 10 },
       { user_id := "u2", tip_id := "t1", stake := 20 }]
      [] (by simp)).2.2

/-- The `UserHistory` total staked is the sum of all stake amounts. -/
theorem uhTotalStaked_eq_sum (entries : List HistEntry) :
    uhTotalStaked entries = (entries.map HistEntry.stake).sum := by
  simpa [uhTotalStaked] using foldl_add_map_sum HistEntry.stake entries 0

/-- The `Dashboard` total stakes is the sum of all stake amounts. -/
theorem dashTotalStakes_eq_sum (tracking : List Track) :
    dashTotalStakes tracking = (tracking.map Track.stake).sum := by
  simpa [dashTotalStakes] using foldl_add_map_sum Track.stake tracking 0

/-- C2: once the match has started, an update attempt that changes
`match_name`, `bet_type` or `odds` is rejected by the anti-cheat trigger
with its policy-violation message and leaves the stored row unchanged; a
status-only update still succeeds; and before the match start the guard
rejects nothing. -/
theorem anti_cheat_spec (now : Int) (old new : Tip) :
    (old.match_start_time ≤ now →
      (new.match_name ≠ old.match_name ∨ new.bet_type ≠ old.bet_type ∨ new.odds ≠ old.odds) →
      enforce_tip_anti_cheat now old new =
        Except.error
          "Cannot edit tip details after match has started. Only status can be updated." ∧
      applyTipUpdate now old new = old) ∧
    (old.match_start_time ≤ now → ∀ s : TipStatus,
      enforce_tip_anti_cheat now old (setStatus old s) = Except.ok (setStatus old s)) ∧
    (now < old.match_start_time → enforce_tip_anti_cheat now old new = Except.ok new) := by
  refine ⟨?_, ?_, ?_⟩
  · intro hle hch
    have hcond : new.bet_type ≠ old.bet_type ∨ new.odds ≠ old.odds ∨
        new.match_name ≠ old.match_name := by tauto
    have h1 : enforce_tip_anti_cheat now old new =
        Except.error
          "Cannot edit tip details after match has started. Only status can be updated." := by
      unfold enforce_tip_anti_cheat
      rw [if_pos hle, if_pos hcond]
    refine ⟨h1, ?_⟩
    unfold applyTipUpdate
    rw [h1]
  · intro hle s
    simp [enforce_tip_anti_cheat, setStatus, hle]
  · intro hlt
    have h : ¬ old.match_start_time ≤ now := not_le.mpr hlt
    simp [enforce_tip_anti_cheat, h]

/-- A concrete pending tip whose match started at time 100. -/
def tipA : Tip :=
  { id := "t1", match_name := "A vs B", sport := "Football", bet_type := "1X2",
    odds := 2, status := .pending, match_start_time := 100 }

/-- C2 witness: at time 100 an odds change on `tipA` is rejected and the
row stays `tipA`. -/
theorem anti_cheat_spec_witness :
    enforce_tip_anti_cheat 100 tipA { tipA with odds := 3 } =
      Except.error
        "Cannot edit tip details after match has started. Only status can be updated." ∧
    applyTipUpdate 100 tipA { tipA with odds := 3 } = tipA :=
  (anti_cheat_spec 100 tipA { tipA with odds := 3 }).1 (by simp [tipA])
    (by simp [tipA])

/-- C4: `totalStaked` sums the amounts of all stakes regardless of
settlement status, in both the `UserHistory` and the `Dashboard`
aggregations, and ROI is profit over stake times 100 when anything was
staked and 0 by convention when nothing was. -/
theorem totalStaked_roi_spec (entries : List HistEntry) (tips : List Tip)
    (tracking : List Track) :
    uhTotalStaked entries = (entries.map HistEntry.stake).sum ∧
    dashTotalStakes tracking = (tracking.map Track.stake).sum ∧
    (0 < uhTotalStaked entries →
      uhRoi entries = uhTotalProfit entries / uhTotalStaked entries * 100) ∧
    (uhTotalStaked entries = 0 → uhRoi entries = 0) ∧
    (0 < dashTotalStakes tracking →
      dashRoi tips tracking = dashTotalProfit tips tracking / dashTotalStakes tracking * 100) ∧
    (dashTotalStakes tracking = 0 → dashRoi tips tracking = 0) := by
  refine ⟨uhTotalStaked_eq_sum entries, dashTotalStakes_eq_sum tracking, ?_, ?_, ?_, ?_⟩
  · intro h; simp [uhRoi, h]
  · intro h; simp [uhRoi, h]
  · intro h; simp [dashRoi, h]
  · intro h; simp [dashRoi, h]

/-- C4 witness: the spec's concrete scenario, one won stake of 10 at
odds 2 gives a positive total staked and the ROI quotient formula. -/
theorem totalStaked_roi_spec_witness :
    uhRoi [{ stake := 10, odds := 2, status := .won }] =
      uhTotalProfit [{ stake := 10, odds := 2, status := .won }]
        / uhTotalStaked [{ stake := 10, odds := 2, status := .won }] * 100 :=
  (totalStaked_roi_spec [{ stake := 10, odds := 2, status := .won }] [] []).2.2.1
    (by norm_num [uhTotalStaked])

/-- C8: the win rate counts won stakes over settled stakes only —
`wins / (wins + losses) × 100` when some stake is settled, 0 otherwise —
and a pending or void entry changes neither numerator nor
denominator. -/
theorem winRate_spec (entries : List HistEntry) :
    (wonEntries entries).length = entries.countP (fun e => e.status = .won) ∧
    (lostEntries entries).length = entries.countP (fun e => e.status = .lost) ∧
    (0 < (wonEntries entries).length + (lostEntries entries).length →
      uhWinRate entries =
        ((wonEntries entries).length : ℚ)
          / (((wonEntries entries).length : ℚ) + ((lostEntries entries).length : ℚ)) * 100) ∧
    ((wonEntries entries).length + (lostEntries entries).length = 0 →
      uhWinRate entries = 0) ∧
    (∀ e : HistEntry, e.status ≠ .won → e.status ≠ .lost →
      uhWinRate (e :: entries) = uhWinRate entries) := by
  refine ⟨?_, ?_, ?_, ?_, ?_⟩
  · simp [wonEntries, List.countP_eq_length_filter]
  · simp [lostEntries, List.countP_eq_length_filter]
  · intro h; simp [uhWinRate, h]
  · intro h; simp [uhWinRate, h]
  · intro e h1 h2
    have hw : wonEntries (e :: entries) = wonEntries entries := by
      simp [wonEntries, List.filter_cons, h1]
    have hl : lostEntries (e :: entries) = lostEntries entries := by
      simp [lostEntries, List.filter_cons, h2]
    simp only [uhWinRate, hw, hl]

/-- C8 witness: one won and one lost stake give a 50% win-rate ratio via
the formula. -/
theorem winRate_spec_witness :
    uhWinRate [{ stake := 10, odds := 2, status := .won },
               { stake := 5, odds := 3, status := .lost }] =
      ((wonEntries [{ stake := 10, odds := 2, status := .won },
                    { stake := 5, odds := 3, status := .lost }]).length : ℚ)
        / (((wonEntries [{ stake := 10, odds := 2, status := .won },
                          { stake := 5, odds := 3, status := .lost }]).length : ℚ)
            + ((lostEntries [{ stake := 10, odds := 2, status := .won },
                             { stake := 5, odds := 3, status := .lost }]).length : ℚ)) * 100 :=
  (winRate_spec [{ stake := 10, odds := 2, status := .won },
                 { stake := 5, odds := 3, status := .lost }]).2.2.1
    (by simp [wonEntries])

/-- Concrete stake referencing a tip id that resolves to no tip. -/
def orphanTrack : Track := { user_id := "u1", tip_id := "t1", stake := 10 }

/-- C5 counterexample: with no tips and one unresolved stake of 10, the
Dashboard summary differs from the summary with that stake removed —
`totalStakes` is 10 with it and 0 without it, so the unresolved stake
does not have zero effect on every field. -/
theorem orphan_stake_counterexample :
    dashboardStats [] [orphanTrack] ≠ dashboardStats [] [] := by
  intro h
  have h' := congrArg DashStats.totalStakes h
  norm_num [dashboardStats, dashTotalStakes, orphanTrack] at h'

/-- C5 amended: a stake whose tip id resolves to no tip contributes
nothing to `totalProfit` and leaves the tip counters unchanged, but its
amount still enters `totalStakes` (and hence the ROI denominator). -/
theorem orphan_stake_amended (tips : List Tip) (tracking : List Track) (r : Track)
    (h : tips.find? (fun tp => tp.id = r.tip_id) = none) :
    dashTotalProfit tips (r :: tracking) = dashTotalProfit tips tracking ∧
    (dashboardStats tips (r :: tracking)).totalTips
      = (dashboardStats tips tracking).totalTips ∧
    (dashboardStats tips (r :: tracking)).wonTips
      = (dashboardStats tips tracking).wonTips ∧
    (dashboardStats tips (r :: tracking)).lostTips
      = (dashboardStats tips tracking).lostTips ∧
    dashTotalStakes (r :: tracking) = r.stake + dashTotalStakes tracking := by
  have hc : dashContrib tips r = 0 := by simp [dashContrib, h]
  refine ⟨?_, rfl, rfl, rfl, ?_⟩
  · rw [dashTotalProfit_eq_sum, dashTotalProfit_eq_sum, List.map_cons, List.sum_cons, hc,
      zero_add]
  · rw [dashTotalStakes_eq_sum, dashTotalStakes_eq_sum, List.map_cons, List.sum_cons]

/-- C5 witness: the amended statement at the concrete unresolved
stake. -/
theorem orphan_stake_amended_witness :
    dashTotalProfit [] [orphanTrack] = dashTotalProfit [] [] ∧
    (dashboardStats [] [orphanTrack]).totalTips = (dashboardStats [] []).totalTips ∧
    (dashboardStats [] [orphanTrack]).wonTips = (dashboardStats [] []).wonTips ∧
    (dashboardStats [] [orphanTrack]).lostTips = (dashboardStats [] []).lostTips ∧
    dashTotalStakes [orphanTrack] = orphanTrack.stake + dashTotalStakes [] :=
  orphan_stake_amended [] [] orphanTrack (by simp)

/-- Unfolding lemma: a row with no tip join is skipped by the
leaderboard fold. -/
theorem lbStep_none (m : List (String × LBEntry)) (r : TrackRow)
    (h : r.tips = none) : lbStep m r = m := by
  unfold lbStep
  rw [h]

/-- Unfolding lemma: a row with a tip join branches on whether the tip
is settled. -/
theorem lbStep_some (m : List (String × LBEntry)) (r : TrackRow) (tj : TipJoin)
    (h : r.tips = some tj) :
    lbStep m r =
      if tj.status = .pending ∨ tj.status = .void then m else upsert r tj m := by
  unfold lbStep
  rw [h]

/-- Unfolding lemma for `settledRow` with a present join. -/
theorem settledRow_some (r : TrackRow) (tj : TipJoin) (h : r.tips = some tj) :
    settledRow r =
      if tj.status = .pending ∨ tj.status = .void then false else true := by
  unfold settledRow
  rw [h]

/-- A row that is not settled is skipped by the leaderboard fold. -/
theorem lbStep_skip (m : List (String × LBEntry)) (r : TrackRow)
    (hr : settledRow r = false) : lbStep m r = m := by
  cases ht : r.tips with
  | none => exact lbStep_none m r ht
  | some tj =>
    rw [lbStep_some m r tj ht]
    rw [settledRow_some r tj ht] at hr
    by_cases hs : tj.status = .pending ∨ tj.status = .void
    · rw [if_pos hs]
    · rw [if_neg hs] at hr
      cases hr

/-- The leaderboard fold over the settled rows equals the fold over all
rows. -/
theorem foldl_lbStep_filter (rows : List TrackRow) :
    ∀ m : List (String × LBEntry),
      (rows.filter settledRow).foldl lbStep m = rows.foldl lbStep m := by
  induction rows with
  | nil => intro m; rfl
  | cons r rows ih =>
    intro m
    rw [List.filter_cons]
    by_cases hr : settledRow r = true
    · rw [if_pos hr]
      simp only [List.foldl_cons]
      exact ih (lbStep m r)
    · rw [if_neg hr, List.foldl_cons, lbStep_skip m r (Bool.eq_false_iff.mpr hr)]
      exact ih m

/-- `accumulate` never changes the entry's user id. -/
theorem accumulate_user_id (tj : TipJoin) (s : ℚ) (e : LBEntry) :
    (accumulate tj s e).user_id = e.user_id := by
  unfold accumulate
  by_cases h1 : tj.status = .won <;> by_cases h2 : tj.status = .lost <;> simp [h1, h2]

/-- `accumulate` adds the stake to the entry's total staked. -/
theorem accumulate_total_staked (tj : TipJoin) (s : ℚ) (e : LBEntry) :
    (accumulate tj s e).total_staked = e.total_staked + s := by
  unfold accumulate
  by_cases h1 : tj.status = .won <;> by_cases h2 : tj.status = .lost <;> simp [h1, h2]

/-- `accumulate` increments the entry's bet count. -/
theorem accumulate_total_bets (tj : TipJoin) (s : ℚ) (e : LBEntry) :
    (accumulate tj s e).total_bets = e.total_bets + 1 := by
  unfold accumulate
  by_cases h1 : tj.status = .won <;> by_cases h2 : tj.status = .lost <;> simp [h1, h2]

/-- Every pair in an upserted map either descends from a pair of the old
map with the same key and user id or carries the upserted row's user
id. -/
theorem mem_upsert (t : TrackRow) (tj : TipJoin) :
    ∀ (m : List (String × LBEntry)), ∀ p ∈ upsert t tj m,
      (∃ q ∈ m, p.1 = q.1 ∧ p.2.user_id = q.2.user_id) ∨
      (p.1 = t.user_id ∧ p.2.user_id = t.user_id) := by
  intro m
  induction m with
  | nil =>
    intro p hp
    right
    rcases List.mem_singleton.mp hp with rfl
    exact ⟨rfl, by rw [accumulate_user_id]; rfl⟩
  | cons kv rest ih =>
    intro p hp
    obtain ⟨k, e⟩ := kv
    unfold upsert at hp
    by_cases hk : k = t.user_id
    · rw [if_pos hk] at hp
      rcases List.mem_cons.mp hp with rfl | hp'
      · left
        exact ⟨(k, e), List.mem_cons_self _ _, rfl, accumulate_user_id tj t.stake e⟩
      · left
        exact ⟨p, List.mem_cons_of_mem _ hp', rfl, rfl⟩
    · rw [if_neg hk] at hp
      rcases List.mem_cons.mp hp with rfl | hp'
      · left
        exact ⟨(k, e), List.mem_cons_self _ _, rfl, rfl⟩
      · rcases ih p hp' with ⟨q, hq, h1, h2⟩ | h
        · left
          exact ⟨q, List.mem_cons_of_mem _ hq, h1, h2⟩
        · right
          exact h

/-- Every pair in the folded leaderboard map descends from a pair of the
initial map or from a settled row carrying its user id. -/
theorem mem_foldl_lbStep (rows : List TrackRow) :
    ∀ (m : List (String × LBEntry)), ∀ p ∈ rows.foldl lbStep m,
      (∃ q ∈ m, p.1 = q.1 ∧ p.2.user_id = q.2.user_id) ∨
      (∃ r ∈ rows, settledRow r = true ∧ p.1 = r.user_id ∧ p.2.user_id = r.user_id) := by
  induction rows with
  | nil =>
    intro m p hp
    left
    exact ⟨p, hp, rfl, rfl⟩
  | cons r rows ih =>
    intro m p hp
    simp only [List.foldl_cons] at hp
    rcases ih (lbStep m r) p hp with ⟨q, hq, h1, h2⟩ | ⟨r', hr', hs, h1, h2⟩
    · cases ht : r.tips with
      | none =>
        rw [lbStep_none m r ht] at hq
        left
        exact ⟨q, hq, h1, h2⟩
      | some tj =>
        rw [lbStep_some m r tj ht] at hq
        by_cases hst : tj.status = .pending ∨ tj.status = .void
        · rw [if_pos hst] at hq
          left
          exact ⟨q, hq, h1, h2⟩
        · rw [if_neg hst] at hq
          rcases mem_upsert r tj m q hq with ⟨q', hq', h1', h2'⟩ | ⟨h1', h2'⟩
          · left
            exact ⟨q', hq', h1.trans h1', h2.trans h2'⟩
          · right
            refine ⟨r, List.mem_cons_self _ _, ?_, h1.trans h1', h2.trans h2'⟩
            rw [settledRow_some r tj ht, if_neg hst]
    · right
      exact ⟨r', List.mem_cons_of_mem _ hr', hs, h1, h2⟩

/-- Every leaderboard entry descends from a settled row of the same
user. -/
theorem fetchLeaderboard_mem (rows : List TrackRow) (e : LBEntry)
    (he : e ∈ fetchLeaderboard rows) :
    ∃ r ∈ rows, settledRow r = true ∧ e.user_id = r.user_id := by
  unfold fetchLeaderboard at he
  have h1 : e ∈ ((rows.foldl lbStep []).map Prod.snd).mergeSort lbLe :=
    List.mem_of_mem_take he
  have h2 : e ∈ (rows.foldl lbStep []).map Prod.snd := List.mem_mergeSort.mp h1
  obtain ⟨p, hp, rfl⟩ := List.mem_map.mp h2
  rcases mem_foldl_lbStep rows [] p hp with ⟨q, hq, _⟩ | ⟨r, hr, hs, _, h2'⟩
  · cases hq
  · exact ⟨r, hr, hs, h2'⟩

/-- C3: the leaderboard counts settled stakes only (the fold over the
settled rows yields the same output, and a user all of whose rows are
unsettled gets no entry), and the output is sorted by total profit
non-increasing with at most 10 entries. -/
theorem leaderboard_spec (rows : List TrackRow) :
    fetchLeaderboard (rows.filter settledRow) = fetchLeaderboard rows ∧
    (∀ u : String, (∀ r ∈ rows, r.user_id = u → settledRow r = false) →
      ∀ e ∈ fetchLeaderboard rows, e.user_id ≠ u) ∧
    (fetchLeaderboard rows).Pairwise (fun a b => b.total_profit ≤ a.total_profit) ∧
    (fetchLeaderboard rows).length ≤ 10 := by
  refine ⟨?_, ?_, ?_, ?_⟩
  · unfold fetchLeaderboard
    rw [foldl_lbStep_filter]
  · intro u hu e he hne
    obtain ⟨r, hr, hs, h2⟩ := fetchLeaderboard_mem rows e he
    have hfalse := hu r hr (by rw [← h2, hne])
    rw [hfalse] at hs
    cases hs
  · have htrans : ∀ a b c : LBEntry, lbLe a b → lbLe b c → lbLe a c := by
      intro a b c hab hbc
      simp only [lbLe, decide_eq_true_eq] at hab hbc ⊢
      exact le_trans hbc hab
    have htotal : ∀ a b : LBEntry, lbLe a b || lbLe b a := by
      intro a b
      simp only [lbLe, Bool.or_eq_true, decide_eq_true_eq]
      exact le_total b.total_profit a.total_profit
    have hs := List.sorted_mergeSort htrans htotal ((rows.foldl lbStep []).map Prod.snd)
    have hs' := List.Pairwise.sublist (List.take_sublist 10 _) hs
    exact hs'.imp (fun h => by simpa [lbLe] using h)
  · exact List.length_take_le 10 _

/-- A concrete settled tracking row: user u1 staked 10 on a won tip at
odds 2. -/
def rowEx : TrackRow :=
  { user_id := "u1", stake := 10, tip_id := "t1", tips := some ⟨2, .won⟩,
    username := some "alice" }

/-- C3 witness: at a concrete row set the leaderboard has at most ten
entries. -/
theorem leaderboard_spec_witness :
    (fetchLeaderboard [rowEx]).length ≤ 10 :=
  (leaderboard_spec [rowEx]).2.2.2

/-- An upsert with a positive stake preserves the invariant that every
entry has positive total staked and at least one bet. -/
theorem mem_upsert_pos (t : TrackRow) (tj : TipJoin) (hs : 0 < t.stake) :
    ∀ (m : List (String × LBEntry)),
      (∀ q ∈ m, 0 < q.2.total_staked ∧ 1 ≤ q.2.total_bets) →
      ∀ p ∈ upsert t tj m, 0 < p.2.total_staked ∧ 1 ≤ p.2.total_bets := by
  intro m
  induction m with
  | nil =>
    intro _ p hp
    rcases List.mem_singleton.mp hp with rfl
    constructor
    · rw [accumulate_total_staked]
      simpa [initEntry] using hs
    · rw [accumulate_total_bets]
      simp [initEntry]
  | cons kv rest ih =>
    intro hm p hp
    obtain ⟨k, e⟩ := kv
    unfold upsert at hp
    by_cases hk : k = t.user_id
    · rw [if_pos hk] at hp
      rcases List.mem_cons.mp hp with rfl | hp'
      · have he := hm (k, e) (List.mem_cons_self _ _)
        constructor
        · rw [accumulate_total_staked]
          exact add_pos he.1 hs
        · rw [accumulate_total_bets]
          exact Nat.le_succ_of_le he.2
      · exact hm p (List.mem_cons_of_mem _ hp')
    · rw [if_neg hk] at hp
      rcases List.mem_cons.mp hp with rfl | hp'
      · exact hm (k, e) (List.mem_cons_self _ _)
      · exact ih (fun q hq => hm q (List.mem_cons_of_mem _ hq)) p hp'

/-- The leaderboard fold preserves positivity of total staked and bet
counts when all stakes are positive. -/
theorem mem_foldl_lbStep_pos (rows : List TrackRow)
    (hrows : ∀ r ∈ rows, 0 < r.stake) :
    ∀ (m : List (String × LBEntry)),
      (∀ q ∈ m, 0 < q.2.total_staked ∧ 1 ≤ q.2.total_bets) →
      ∀ p ∈ rows.foldl lbStep m, 0 < p.2.total_staked ∧ 1 ≤ p.2.total_bets := by
  induction rows with
  | nil =>
    intro m hm p hp
    exact hm p hp
  | cons r rows ih =>
    intro m hm p hp
    simp only [List.foldl_cons] at hp
    refine ih (fun r' hr' => hrows r' (List.mem_cons_of_mem _ hr')) (lbStep m r) ?_ p hp
    intro q hq
    cases ht : r.tips with
    | none =>
      rw [lbStep_none m r ht] at hq
      exact hm q hq
    | some tj =>
      rw [lbStep_some m r tj ht] at hq
      by_cases hst : tj.status = .pending ∨ tj.status = .void
      · rw [if_pos hst] at hq
        exact hm q hq
      · rw [if_neg hst] at hq
        exact mem_upsert_pos r tj (hrows r (List.mem_cons_self _ _)) m hm q hq

/-- C10: when every stake amount is positive (the `CHECK (stake > 0)`
constraint), every leaderboard entry has positive total staked and at
least one settled bet, so its display ROI never takes the zero-stake
fallback branch. -/
theorem leaderboard_entry_positive (rows : List TrackRow)
    (hrows : ∀ r ∈ rows, 0 < r.stake) :
    ∀ e ∈ fetchLeaderboard rows,
      0 < e.total_staked ∧ 1 ≤ e.total_bets ∧
      lbRoi e = e.total_profit / e.total_staked * 100 := by
  intro e he
  unfold fetchLeaderboard at he
  have h1 : e ∈ ((rows.foldl lbStep []).map Prod.snd).mergeSort lbLe :=
    List.mem_of_mem_take he
  have h2 : e ∈ (rows.foldl lbStep []).map Prod.snd := List.mem_mergeSort.mp h1
  obtain ⟨p, hp, rfl⟩ := List.mem_map.mp h2
  have hinv := mem_foldl_lbStep_pos rows hrows [] (by simp) p hp
  exact ⟨hinv.1, hinv.2, by simp [lbRoi, hinv.1]⟩

/-- The leaderboard entry produced by `rowEx`. -/
def entryEx : LBEntry :=
  { user_id := "u1", username := "alice", total_profit := 10, total_staked := 10,
    wins := 1, total_bets := 1 }

/-- C10 witness: the concrete single-row leaderboard entry has positive
staked total, a bet count of at least one, and its ROI takes the
quotient branch. -/
theorem leaderboard_entry_positive_witness :
    0 < entryEx.total_staked ∧ 1 ≤ entryEx.total_bets ∧
    lbRoi entryEx = entryEx.total_profit / entryEx.total_staked * 100 :=
  leaderboard_entry_positive [rowEx] (by norm_num [rowEx]) entryEx
    (by
      simp [fetchLeaderboard, lbStep, upsert, accumulate, initEntry, rowEx, entryEx]
      norm_num)

/-- A reaction row matches (user, tip, kind) exactly when it is the
canonical row with those fields. -/
theorem isReaction_iff (u t ty : String) (r : Reaction) :
    isReaction u t ty r = true ↔ r = ⟨u, t, ty⟩ := by
  cases r with
  | mk ru rt rty => simp [isReaction, Reaction.mk.injEq, and_assoc]

/-- A count splits over any boolean refinement of its predicate. -/
theorem countP_split {α : Type} (p q : α → Bool) (l : List α) :
    l.countP q = l.countP (fun a => q a && p a) + l.countP (fun a => q a && !p a) := by
  induction l with
  | nil => rfl
  | cons x l ih =>
    rw [List.countP_cons, List.countP_cons, List.countP_cons, ih]
    by_cases hp : p x = true <;> by_cases hq : q x = true <;> simp [hp, hq] <;> omega

/-- Equal counts give equal `any` flags. -/
theorem any_eq_of_countP_eq {α : Type} (l1 l2 : List α) (p : α → Bool)
    (h : l1.countP p = l2.countP p) : l1.any p = l2.any p := by
  rw [Bool.eq_iff_iff, List.any_eq_true, List.any_eq_true]
  constructor
  · rintro ⟨a, ha, hpa⟩
    have hpos : 0 < l2.countP p := by
      rw [← h]
      exact List.countP_pos_iff.mpr ⟨a, ha, hpa⟩
    obtain ⟨b, hb, hpb⟩ := List.countP_pos_iff.mp hpos
    exact ⟨b, hb, hpb⟩
  · rintro ⟨a, ha, hpa⟩
    have hpos : 0 < l1.countP p := by
      rw [h]
      exact List.countP_pos_iff.mpr ⟨a, ha, hpa⟩
    obtain ⟨b, hb, hpb⟩ := List.countP_pos_iff.mp hpos
    exact ⟨b, hb, hpb⟩

/-- Toggling the same (user, tip, kind) twice preserves every count over
the reaction set, provided the set held at most one matching row. -/
theorem handleReact_twice_countP (rs : List Reaction) (u t ty : String)
    (hty : ty = "like" ∨ ty = "fire")
    (huniq : rs.countP (isReaction u t ty) ≤ 1) (q : Reaction → Bool) :
    (handleReact (handleReact rs u t ty) u t ty).countP q = rs.countP q := by
  have hkey : (if ty = "like" then "like" else "fire") = ty := by
    rcases hty with h | h <;> simp [h]
  by_cases hflag : userFlag rs u t ty = true
  · have hone : rs.countP (isReaction u t ty) = 1 := by
      have hpos : 0 < rs.countP (isReaction u t ty) := by
        obtain ⟨a, ha, hpa⟩ := List.any_eq_true.mp hflag
        exact List.countP_pos_iff.mpr ⟨a, ha, hpa⟩
      omega
    have h1 : handleReact rs u t ty = rs.filter (fun r => !(isReaction u t ty r)) := by
      simp only [handleReact, hkey]
      rw [if_pos hflag]
    have hflag2 : userFlag (rs.filter (fun r => !(isReaction u t ty r))) u t ty = false := by
      rw [userFlag, List.any_eq_false]
      intro x hx hcon
      have hneg := (List.mem_filter.mp hx).2
      rw [hcon] at hneg
      cases hneg
    have h2 : handleReact (handleReact rs u t ty) u t ty
        = rs.filter (fun r => !(isReaction u t ty r)) ++ [⟨u, t, ty⟩] := by
      rw [h1]
      simp only [handleReact, hkey]
      rw [if_neg (by simp [hflag2])]
    have hsplit := countP_split (isReaction u t ty) q rs
    rw [h2]
    simp only [List.countP_append, List.countP_filter, List.countP_singleton]
    by_cases hq : q (⟨u, t, ty⟩ : Reaction) = true
    · have hqp : rs.countP (fun a => q a && isReaction u t ty a) = 1 := by
        rw [← hone]
        apply List.countP_congr
        intro x hx
        constructor
        · intro hx2
          have hx3 : q x = true ∧ isReaction u t ty x = true := by
            simpa [Bool.and_eq_true] using hx2
          exact hx3.2
        · intro hx2
          have hxeq : x = (⟨u, t, ty⟩ : Reaction) := (isReaction_iff u t ty x).mp hx2
          have hqx : q x = true := by
            rw [hxeq]
            exact hq
          simp [Bool.and_eq_true, hqx, hx2]
      rw [if_pos hq]
      omega
    · have hqp : rs.countP (fun a => q a && isReaction u t ty a) = 0 := by
        apply List.countP_eq_zero.mpr
        intro a ha hcon
        have h3 : q a = true ∧ isReaction u t ty a = true := by
          simpa [Bool.and_eq_true] using hcon
        have haeq : a = (⟨u, t, ty⟩ : Reaction) := (isReaction_iff u t ty a).mp h3.2
        apply hq
        rw [← haeq]
        exact h3.1
      rw [if_neg hq]
      omega
  · have hflag' : userFlag rs u t ty = false := Bool.eq_false_iff.mpr hflag
    have hnone : ∀ r ∈ rs, isReaction u t ty r = false := by
      intro r hr
      rcases Bool.eq_false_or_eq_true (isReaction u t ty r) with h | h
      · exact absurd (List.any_eq_true.mpr ⟨r, hr, h⟩) hflag
      · exact h
    have h1 : handleReact rs u t ty = rs ++ [(⟨u, t, ty⟩ : Reaction)] := by
      simp only [handleReact, hkey]
      rw [if_neg hflag]
    have hflag2 : userFlag (rs ++ [(⟨u, t, ty⟩ : Reaction)]) u t ty = true := by
      refine List.any_eq_true.mpr ⟨(⟨u, t, ty⟩ : Reaction), ?_, ?_⟩
      · simp
      · simp [isReaction]
    have h2 : handleReact (handleReact rs u t ty) u t ty
        = (rs ++ [(⟨u, t, ty⟩ : Reaction)]).filter (fun r => !(isReaction u t ty r)) := by
      rw [h1]
      simp only [handleReact, hkey]
      rw [if_pos hflag2]
    have h3 : (rs ++ [(⟨u, t, ty⟩ : Reaction)]).filter (fun r => !(isReaction u t ty r))
        = rs := by
      rw [List.filter_append]
      have hl : rs.filter (fun r => !(isReaction u t ty r)) = rs :=
        List.filter_eq_self.mpr (fun a ha => by rw [hnone a ha]; rfl)
      have hr : ([(⟨u, t, ty⟩ : Reaction)]).filter (fun r => !(isReaction u t ty r)) = [] := by
        simp [isReaction]
      rw [hl, hr, List.append_nil]
    rw [h2, h3]

/-- C6: toggling the same (user, tip, kind) twice restores every per-tip
like/fire count and the viewer's participation flags, and a single
toggle removes the viewer's matching reaction when present and creates
exactly one when absent. -/
theorem reaction_toggle_spec (rs : List Reaction) (u t ty : String)
    (hty : ty = "like" ∨ ty = "fire")
    (huniq : rs.countP (isReaction u t ty) ≤ 1) :
    (∀ t' : String,
      likeCount (handleReact (handleReact rs u t ty) u t ty) t' = likeCount rs t' ∧
      fireCount (handleReact (handleReact rs u t ty) u t ty) t' = fireCount rs t' ∧
      userFlag (handleReact (handleReact rs u t ty) u t ty) u t' "like"
        = userFlag rs u t' "like" ∧
      userFlag (handleReact (handleReact rs u t ty) u t ty) u t' "fire"
        = userFlag rs u t' "fire") ∧
    (handleReact rs u t ty).countP (isReaction u t ty)
      = (if userFlag rs u t ty then 0 else 1) := by
  constructor
  · intro t'
    refine ⟨handleReact_twice_countP rs u t ty hty huniq _,
      handleReact_twice_countP rs u t ty hty huniq _,
      any_eq_of_countP_eq _ _ _ (handleReact_twice_countP rs u t ty hty huniq _),
      any_eq_of_countP_eq _ _ _ (handleReact_twice_countP rs u t ty hty huniq _)⟩
  · have hkey : (if ty = "like" then "like" else "fire") = ty := by
      rcases hty with h | h <;> simp [h]
    by_cases hflag : userFlag rs u t ty = true
    · have h1 : handleReact rs u t ty = rs.filter (fun r => !(isReaction u t ty r)) := by
        simp only [handleReact, hkey]
        rw [if_pos hflag]
      rw [h1, hflag]
      simp [List.countP_filter]
    · have hflag' : userFlag rs u t ty = false := Bool.eq_false_iff.mpr hflag
      have h1 : handleReact rs u t ty = rs ++ [(⟨u, t, ty⟩ : Reaction)] := by
        simp only [handleReact, hkey]
        rw [if_neg hflag]
      have hzero : rs.countP (isReaction u t ty) = 0 := by
        apply List.countP_eq_zero.mpr
        intro a ha hcon
        exact hflag (List.any_eq_true.mpr ⟨a, ha, hcon⟩)
      rw [h1, hflag', List.countP_append, hzero, List.countP_singleton]
      simp [isReaction]

/-- C6 witness: toggling on the empty reaction set creates exactly one
matching row. -/
theorem reaction_toggle_spec_witness :
    (handleReact [] "u1" "t1" "like").countP (isReaction "u1" "t1" "like")
      = (if userFlag [] "u1" "t1" "like" then 0 else 1) :=
  (reaction_toggle_spec [] "u1" "t1" "like" (Or.inl rfl) (by simp)).2

/-- C7: inserting a stake for an already-tracked (user, tip) pair is
rejected with the duplicate-key error, that error is surfaced as
"You already tracked this tip" rather than the generic failure, and the
stored rows — hence every aggregate computed from them — are
unchanged. -/
theorem duplicate_stake_spec (rows : List Track) (nr : Track)
    (h : ∃ r ∈ rows, r.user_id = nr.user_id ∧ r.tip_id = nr.tip_id) :
    insertTracking rows nr = Except.error dupErrorMessage ∧
    stakeToastMessage dupErrorMessage = "You already tracked this tip" ∧
    insertTrackingState rows nr = rows := by
  have hany : rows.any (fun r => r.user_id = nr.user_id && r.tip_id = nr.tip_id) = true := by
    rcases h with ⟨r, hr, h1, h2⟩
    exact List.any_eq_true.mpr ⟨r, hr, by simp [h1, h2]⟩
  have h1 : insertTracking rows nr = Except.error dupErrorMessage := by
    simp only [insertTracking]
    rw [if_pos hany]
  refine ⟨h1, by decide, ?_⟩
  rw [insertTrackingState, h1]

/-- C7 witness: re-tracking an already-tracked tip is rejected and the
table is unchanged. -/
theorem duplicate_stake_spec_witness :
    insertTracking [{ user_id := "u1", tip_id := "t1", stake := 10 }]
        { user_id := "u1", tip_id := "t1", stake := 5 }
      = Except.error dupErrorMessage ∧
    stakeToastMessage dupErrorMessage = "You already tracked this tip" ∧
    insertTrackingState [{ user_id := "u1", tip_id := "t1", stake := 10 }]
        { user_id := "u1", tip_id := "t1", stake := 5 }
      = [{ user_id := "u1", tip_id := "t1", stake := 10 }] :=
  duplicate_stake_spec [{ user_id := "u1", tip_id := "t1", stake := 10 }]
    { user_id := "u1", tip_id := "t1", stake := 5 }
    ⟨{ user_id := "u1", tip_id := "t1", stake := 10 }, by simp, rfl, rfl⟩

/-- C9: the comment list for a tip holds exactly the comments
referencing that tip (a permutation of the filtered set, with matching
membership), ordered by creation time ascending. -/
theorem fetchComments_spec (comments : List Comment) (tipId : String) :
    List.Perm (fetchComments comments tipId)
      (comments.filter (fun c => c.tip_id = tipId)) ∧
    (∀ c : Comment, c ∈ fetchComments comments tipId ↔
      c ∈ comments ∧ c.tip_id = tipId) ∧
    (fetchComments comments tipId).Pairwise
      (fun a b => a.created_at ≤ b.created_at) := by
  refine ⟨List.mergeSort_perm _ _, ?_, ?_⟩
  · intro c
    unfold fetchComments
    rw [List.mem_mergeSort, List.mem_filter]
    simp
  · unfold fetchComments
    have htrans : ∀ a b c : Comment, decide (a.created_at ≤ b.created_at) = true →
        decide (b.created_at ≤ c.created_at) = true →
        decide (a.created_at ≤ c.created_at) = true := by
      intro a b c hab hbc
      simp only [decide_eq_true_eq] at hab hbc ⊢
      exact le_trans hab hbc
    have htotal : ∀ a b : Comment, (decide (a.created_at ≤ b.created_at)
        || decide (b.created_at ≤ a.created_at)) = true := by
      intro a b
      simp only [Bool.or_eq_true, decide_eq_true_eq]
      exact le_total _ _
    have hs := List.sorted_mergeSort htrans htotal
      (comments.filter (fun c => c.tip_id = tipId))
    exact hs.imp (fun h => by simpa using h)

end EureProno
